import Mathlib

/-!
Verification of the libshveu geometry/format computations and the
operation lifecycle described in the design document, against the
repository sources.  Pure functions of the demonstration tools
(src/tools/shveu-convert.c and the display tool) are embedded directly;
the library core (veu_colorspace.c) is not part of the staged sources,
so the planner and the state machine are modelled from the design
document, with each such definition marked in its doc comment.
C integers are embedded as Int (or Nat for values the C code keeps
non-negative); C integer division truncates toward zero, which is
Int.tdiv.  All image dimensions handled by the tools come from a fixed
size table (at most 1280 by 720), so the 32-bit int arithmetic of the
tools never overflows and is embedded exactly.
-/

namespace Shveu

/-- Pixel formats: sh_vid_format_t as the tools use it.  The known
variants plus the "unknown" sentinel; every integer value outside the
enumerated set falls to the same default branch as the sentinel in each
switch of the tools, so the sentinel stands for the whole
out-of-enumeration class. -/
inductive Format where
  | SH_UNKNOWN : Format
  | SH_RGB565 : Format
  | SH_RGB24 : Format
  | SH_RGB32 : Format
  | SH_NV12 : Format
  | SH_NV16 : Format
deriving DecidableEq, Repr

/-- The numerator/denominator pair the switch of imgsize selects:
bytes per pixel as a fraction n/d (shveu-convert.c lines 189..213).
none for the default branch. -/
def imgsize_nd (colorspace : Format) : Option (Int × Int) :=
  match colorspace with
  | .SH_RGB32 => some (4, 1)
  | .SH_RGB24 => some (3, 1)
  | .SH_RGB565 => some (2, 1)
  | .SH_NV16 => some (2, 1)
  | .SH_NV12 => some (3, 2)
  | .SH_UNKNOWN => none

/-- imgsize from src/tools/shveu-convert.c (and identically in the
display tool): total byte count of a w by h image, computed as
w*h*n/d in C int arithmetic (truncating division), or -1 for an
unsupported format. -/
def imgsize (colorspace : Format) (w h : Int) : Int :=
  match imgsize_nd colorspace with
  | some (n, d) => Int.tdiv (w * h * n) d
  | none => -1

/-- Chroma-plane pointer setup from main() of shveu-convert.c: the
luma pointer py, then pc = 0 for RGB565 and pc = py + w*h for every
other format. -/
def chroma_pc (fmt : Format) (py : Int) (w h : Int) : Int :=
  if fmt = .SH_RGB565 then 0 else py + w * h

/-- The supported formats: everything except the unknown sentinel. -/
def Format.supported (f : Format) : Prop := f ≠ .SH_UNKNOWN

instance (f : Format) : Decidable f.supported := by
  unfold Format.supported; infer_instance

/-- Modelled from the spec: the chroma-plane byte size per the plane
layout of the pitch_and_size contract (the library file holding
pitch computations, veu_colorspace.c, is not in the staged sources).
NV12 stores width*height/2 chroma bytes, NV16 stores width*height,
the RGB formats have no chroma plane. -/
def chroma_plane_size (fmt : Format) (w h : ℕ) : ℕ :=
  match fmt with
  | .SH_NV12 => w * h / 2
  | .SH_NV16 => w * h
  | _ => 0

/-- The chroma-plane byte offset the tools establish: pc - py, which
main() of shveu-convert.c makes 0 for RGB565 and w*h otherwise. -/
def chroma_offset (fmt : Format) (w h : ℕ) : ℕ :=
  if fmt = .SH_RGB565 then 0 else w * h

/-- Casting helper: C truncating division of two casted naturals is the
natural division, casted. -/
theorem tdiv_natCast (a b : ℕ) : Int.tdiv ((a : ℤ)) ((b : ℤ)) = ((a / b : ℕ) : ℤ) := rfl

theorem imgsize_rgb565 (w h : ℕ) : imgsize .SH_RGB565 w h = ((w * h * 2 : ℕ) : ℤ) := by
  show Int.tdiv ((w : ℤ) * h * 2) 1 = _
  have e : ((w : ℤ) * h * 2) = ((w * h * 2 : ℕ) : ℤ) := by push_cast; ring
  rw [e, show (1 : ℤ) = ((1 : ℕ) : ℤ) from rfl, tdiv_natCast, Nat.div_one]

theorem imgsize_nv16 (w h : ℕ) : imgsize .SH_NV16 w h = ((w * h * 2 : ℕ) : ℤ) := by
  show Int.tdiv ((w : ℤ) * h * 2) 1 = _
  have e : ((w : ℤ) * h * 2) = ((w * h * 2 : ℕ) : ℤ) := by push_cast; ring
  rw [e, show (1 : ℤ) = ((1 : ℕ) : ℤ) from rfl, tdiv_natCast, Nat.div_one]

theorem imgsize_rgb24 (w h : ℕ) : imgsize .SH_RGB24 w h = ((w * h * 3 : ℕ) : ℤ) := by
  show Int.tdiv ((w : ℤ) * h * 3) 1 = _
  have e : ((w : ℤ) * h * 3) = ((w * h * 3 : ℕ) : ℤ) := by push_cast; ring
  rw [e, show (1 : ℤ) = ((1 : ℕ) : ℤ) from rfl, tdiv_natCast, Nat.div_one]

theorem imgsize_rgb32 (w h : ℕ) : imgsize .SH_RGB32 w h = ((w * h * 4 : ℕ) : ℤ) := by
  show Int.tdiv ((w : ℤ) * h * 4) 1 = _
  have e : ((w : ℤ) * h * 4) = ((w * h * 4 : ℕ) : ℤ) := by push_cast; ring
  rw [e, show (1 : ℤ) = ((1 : ℕ) : ℤ) from rfl, tdiv_natCast, Nat.div_one]

theorem imgsize_nv12 (w h : ℕ) : imgsize .SH_NV12 w h = ((w * h * 3 / 2 : ℕ) : ℤ) := by
  show Int.tdiv ((w : ℤ) * h * 3) 2 = _
  have e : ((w : ℤ) * h * 3) = ((w * h * 3 : ℕ) : ℤ) := by push_cast; ring
  rw [e, show (2 : ℤ) = ((2 : ℕ) : ℤ) from rfl, tdiv_natCast]

/-- C1: for every positive width and height, imgsize returns exactly
w*h*2 bytes for RGB565 and NV16, w*h*3 for RGB24, w*h*4 for RGB32, and
the truncating integer value w*h*3/2 for NV12 (bit-for-bit exact
integer arithmetic). -/
theorem imgsize_exact (w h : ℕ) (hw : 0 < w) (hh : 0 < h) :
    imgsize .SH_RGB565 w h = ((w * h * 2 : ℕ) : ℤ) ∧
    imgsize .SH_NV16 w h = ((w * h * 2 : ℕ) : ℤ) ∧
    imgsize .SH_RGB24 w h = ((w * h * 3 : ℕ) : ℤ) ∧
    imgsize .SH_RGB32 w h = ((w * h * 4 : ℕ) : ℤ) ∧
    imgsize .SH_NV12 w h = ((w * h * 3 / 2 : ℕ) : ℤ) :=
  ⟨imgsize_rgb565 w h, imgsize_nv16 w h, imgsize_rgb24 w h,
   imgsize_rgb32 w h, imgsize_nv12 w h⟩

/-- C1 witness: the VGA size, 640 by 480, evaluated concretely. -/
theorem imgsize_exact_witness :
    (0 : ℕ) < 640 ∧ (0 : ℕ) < 480 ∧
    imgsize .SH_NV12 640 480 = ((640 * 480 * 3 / 2 : ℕ) : ℤ) :=
  ⟨by decide, by decide, (imgsize_exact 640 480 (by decide) (by decide)).2.2.2.2⟩

/-- C3: for the unknown sentinel (standing also for every value outside
the enumerated set, which the default branch of the switch treats
identically), imgsize returns -1 instead of a size. -/
theorem imgsize_unsupported (fmt : Format) (w h : Int)
    (hf : fmt ∉ [Format.SH_RGB565, Format.SH_RGB24, Format.SH_RGB32,
                 Format.SH_NV12, Format.SH_NV16]) :
    imgsize fmt w h = -1 := by
  cases fmt
  case SH_UNKNOWN => rfl
  all_goals exact absurd (by decide) hf

/-- C3 witness: the sentinel at a concrete size. -/
theorem imgsize_unsupported_witness : imgsize .SH_UNKNOWN 640 480 = -1 :=
  imgsize_unsupported .SH_UNKNOWN 640 480 (by decide)

/-- C2 counterexample: for an RGB24 surface of 2 by 2 pixels with luma
base 100, main() of shveu-convert.c sets the chroma pointer to
py + w*h, so the chroma offset from the start of the buffer is 4, not
the 0 the claim states for all RGB formats. -/
theorem chroma_pc_rgb24_cex :
    chroma_pc .SH_RGB24 100 2 2 - 100 = 4 ∧
    chroma_pc .SH_RGB24 100 2 2 - 100 ≠ 0 := by
  constructor <;> decide

/-- C2 amended: the chroma pointer established by main() of
shveu-convert.c gives offset w*h from the luma base for every format
other than RGB565 (NV12 and NV16, where it locates the chroma plane,
and also RGB24/RGB32, where it is unused), and the pointer 0 only for
RGB565. -/
theorem chroma_pc_cases (fmt : Format) (py w h : ℤ) :
    (fmt = .SH_RGB565 → chroma_pc fmt py w h = 0) ∧
    (fmt ≠ .SH_RGB565 → chroma_pc fmt py w h - py = w * h) := by
  constructor <;> intro hf <;> simp [chroma_pc, hf]

/-- C7: for every supported format and positive dimensions, the chroma
offset plus the chroma-plane size fits inside the total byte count
imgsize computes, including NV12 with its truncating division. -/
theorem chroma_fits (fmt : Format) (w h : ℕ)
    (hf : fmt.supported) (hw : 0 < w) (hh : 0 < h) :
    ((chroma_offset fmt w h + chroma_plane_size fmt w h : ℕ) : ℤ) ≤
      imgsize fmt w h := by
  cases fmt
  case SH_UNKNOWN => exact absurd rfl hf
  case SH_RGB565 =>
    rw [imgsize_rgb565]
    simp only [chroma_offset, chroma_plane_size]
    simp only [if_pos rfl, Nat.zero_add, Nat.cast_zero, Nat.cast_mul, Nat.cast_ofNat]
    positivity
  case SH_RGB24 =>
    rw [imgsize_rgb24, Nat.cast_le]
    simp only [chroma_offset, chroma_plane_size]
    have : w * h + 0 ≤ w * h * 3 := by
      generalize w * h = t; omega
    simpa using this
  case SH_RGB32 =>
    rw [imgsize_rgb32, Nat.cast_le]
    simp only [chroma_offset, chroma_plane_size]
    have : w * h + 0 ≤ w * h * 4 := by
      generalize w * h = t; omega
    simpa using this
  case SH_NV12 =>
    rw [imgsize_nv12, Nat.cast_le]
    simp only [chroma_offset, chroma_plane_size]
    have : w * h + w * h / 2 ≤ w * h * 3 / 2 := by
      generalize w * h = t; omega
    simpa using this
  case SH_NV16 =>
    rw [imgsize_nv16, Nat.cast_le]
    simp only [chroma_offset, chroma_plane_size]
    have : w * h + w * h ≤ w * h * 2 := by
      generalize w * h = t; omega
    simpa using this

/-- A rectangular selection: position (signed) plus size, as the
Selection value type of the design document (x, y are i32; width and
height u32). -/
structure Rect where
  x : ℤ
  y : ℤ
  w : ℕ
  h : ℕ
deriving DecidableEq, Repr

/-- An image surface: format plus dimensions (the address fields play
no part in the geometry checks and are carried by the engine handle
instead). -/
structure Surf where
  format : Format
  w : ℕ
  h : ℕ
deriving DecidableEq, Repr

/-- The two rotation modes. -/
inductive Rot where
  | noRot : Rot
  | rot90 : Rot
deriving DecidableEq, Repr

/-- The two hardware revisions: VEU3F (sh7724) needs the VRPBR
enlargement-correction register handling, the earlier revision does
not (per the README changelog of this release). -/
inductive HwRev where
  | veu3f : HwRev
  | veu2h : HwRev
deriving DecidableEq, Repr

/-- The geometry failure modes of the design document. -/
inductive GeoErr where
  | UnsupportedFormat : GeoErr
  | OutOfBounds : GeoErr
  | ZeroSizedRegion : GeoErr
  | RotationScaleConflict : GeoErr
deriving DecidableEq, Repr

/-- The planning result: resolved rectangles, rotation mode, scale
ratios (absent for rotation), and the optional enlargement-correction
value. -/
structure OperationPlan where
  srcRect : Rect
  dstRect : Rect
  rot : Rot
  hscale : Option ℚ
  vscale : Option ℚ
  corr : Option ℚ
deriving DecidableEq, Repr

/-- The full-surface extent used when no selection is given. -/
def fullRect (s : Surf) : Rect := ⟨0, 0, s.w, s.h⟩

/-- A rectangle lies within the bounds of a surface. -/
def inBounds (s : Surf) (r : Rect) : Prop :=
  0 ≤ r.x ∧ 0 ≤ r.y ∧ r.x + r.w ≤ (s.w : ℤ) ∧ r.y + r.h ≤ (s.h : ℤ)

instance (s : Surf) (r : Rect) : Decidable (inBounds s r) := by
  unfold inBounds; infer_instance

/-- Modelled from the spec: bytes per line of the pitch_and_size
contract (veu_colorspace.c is not under src/).  The luma-plane pitch:
width times bytes per pixel for the RGB formats, width for the
semi-planar formats whose luma samples are one byte each. -/
def bytes_per_line (fmt : Format) (w : ℕ) : ℕ :=
  match fmt with
  | .SH_RGB32 => w * 4
  | .SH_RGB24 => w * 3
  | .SH_RGB565 => w * 2
  | .SH_NV16 => w
  | .SH_NV12 => w
  | .SH_UNKNOWN => 0

/-- Modelled from the spec: the validation and ratio computation of
plan_operation (steps 3 to 6 of the geometry engine, whose code,
veu_colorspace.c, is not under src/) applied to already-resolved
rectangles.  Checks formats, zero-sized regions and bounds, then either
requires exactly swapped dimensions for rotation or computes the
rational scale ratios; the enlargement-correction value is included
exactly for the revision that needs it when a ratio exceeds 1, derived
from the pixel density relation of the two line pitches (the exact
hardware formula is an undocumented datasheet fact, per the design
notes; only its presence and non-vanishing are relied upon). -/
def plan_rects (src : Surf) (sr : Rect) (dst : Surf) (dr : Rect)
    (rot : Rot) (rev : HwRev) : Except GeoErr OperationPlan :=
  if ¬ src.format.supported ∨ ¬ dst.format.supported then
    .error .UnsupportedFormat
  else if sr.w = 0 ∨ sr.h = 0 ∨ dr.w = 0 ∨ dr.h = 0 then
    .error .ZeroSizedRegion
  else if ¬ inBounds src sr ∨ ¬ inBounds dst dr then
    .error .OutOfBounds
  else
    match rot with
    | .rot90 =>
        if sr.w = dr.h ∧ sr.h = dr.w then
          .ok { srcRect := sr, dstRect := dr, rot := .rot90,
                hscale := none, vscale := none, corr := none }
        else
          .error .RotationScaleConflict
    | .noRot =>
        let hs : ℚ := (dr.w : ℚ) / (sr.w : ℚ)
        let vs : ℚ := (dr.h : ℚ) / (sr.h : ℚ)
        let cv : ℚ := (bytes_per_line dst.format dr.w : ℚ) /
                      (bytes_per_line src.format sr.w : ℚ)
        .ok { srcRect := sr, dstRect := dr, rot := .noRot,
              hscale := some hs, vscale := some vs,
              corr := if rev = .veu3f ∧ (1 < hs ∨ 1 < vs) then some cv else none }

/-- Modelled from the spec: plan_operation resolves the optional
selections to the full surface extents (steps 1 and 2) and validates
and plans on the resolved rectangles. -/
def plan_operation (src : Surf) (srcSel : Option Rect) (dst : Surf)
    (dstSel : Option Rect) (rot : Rot) (rev : HwRev) :
    Except GeoErr OperationPlan :=
  plan_rects src (srcSel.getD (fullRect src)) dst (dstSel.getD (fullRect dst)) rot rev

theorem fullRect_inBounds (s : Surf) : inBounds s (fullRect s) := by
  simp [inBounds, fullRect]

theorem bytes_per_line_pos (fmt : Format) (w : ℕ)
    (hf : fmt.supported) (hw : 0 < w) : 0 < bytes_per_line fmt w := by
  cases fmt
  case SH_UNKNOWN => exact absurd rfl hf
  all_goals simp [bytes_per_line]; omega

/-- The success condition for a destination selection R on surface dst,
as the design document states it: non-negative position, extent within
the surface, positive size. -/
def selOk (dst : Surf) (R : Rect) : Prop :=
  0 ≤ R.x ∧ 0 ≤ R.y ∧ R.x + R.w ≤ (dst.w : ℤ) ∧ R.y + R.h ≤ (dst.h : ℤ) ∧
  0 < R.w ∧ 0 < R.h

instance (dst : Surf) (R : Rect) : Decidable (selOk dst R) := by
  unfold selOk; infer_instance

/-- Shared evaluation lemma: on supported formats, non-empty rectangles
in bounds and no rotation, plan_rects returns the plan with the
rational ratios and the conditional correction. -/
theorem plan_rects_noRot (src : Surf) (sr : Rect) (dst : Surf) (dr : Rect) (rev : HwRev)
    (h1 : src.format.supported) (h2 : dst.format.supported)
    (hz : ¬ (sr.w = 0 ∨ sr.h = 0 ∨ dr.w = 0 ∨ dr.h = 0))
    (hb : inBounds src sr) (hb2 : inBounds dst dr) :
    plan_rects src sr dst dr .noRot rev =
      .ok { srcRect := sr, dstRect := dr, rot := .noRot,
            hscale := some ((dr.w : ℚ) / (sr.w : ℚ)),
            vscale := some ((dr.h : ℚ) / (sr.h : ℚ)),
            corr := if rev = .veu3f ∧
                       (1 < (dr.w : ℚ) / (sr.w : ℚ) ∨ 1 < (dr.h : ℚ) / (sr.h : ℚ))
                    then some ((bytes_per_line dst.format dr.w : ℚ) /
                               (bytes_per_line src.format sr.w : ℚ))
                    else none } := by
  unfold plan_rects
  rw [if_neg (by simp [h1, h2]), if_neg hz, if_neg (by simp [hb, hb2])]

/-- C4: with supported formats and a well-formed source surface, a
planning request whose destination selection is R succeeds exactly when
R is non-negative, within bounds and of positive size; a violation
yields ZeroSizedRegion for an empty rectangle and OutOfBounds
otherwise, and the planner, being a pure function consulted before
configure, has written no register either way. -/
theorem plan_selection_iff (src dst : Surf) (R : Rect) (rev : HwRev)
    (hsf : src.format.supported) (hdf : dst.format.supported)
    (hw : 0 < src.w) (hh : 0 < src.h) :
    ((∃ p, plan_operation src none dst (some R) .noRot rev = .ok p) ↔ selOk dst R) ∧
    (¬ selOk dst R →
      plan_operation src none dst (some R) .noRot rev =
        .error (if R.w = 0 ∨ R.h = 0 then .ZeroSizedRegion else .OutOfBounds)) := by
  have h1 : ¬ (¬ src.format.supported ∨ ¬ dst.format.supported) := by
    simp [hsf, hdf]
  have hfull : inBounds src (fullRect src) := by simp [inBounds, fullRect]
  simp only [plan_operation, Option.getD_none, Option.getD_some]
  unfold plan_rects
  rw [if_neg h1]
  by_cases hz : R.w = 0 ∨ R.h = 0
  · have hz2 : (fullRect src).w = 0 ∨ (fullRect src).h = 0 ∨ R.w = 0 ∨ R.h = 0 := by
      simp only [fullRect]; tauto
    rw [if_pos hz2, if_pos hz]
    refine ⟨⟨fun ⟨p, hp⟩ => Except.noConfusion hp, fun hs => ?_⟩, fun _ => rfl⟩
    rcases hs with ⟨_, _, _, _, h5, h6⟩
    omega
  · have hz2 : ¬ ((fullRect src).w = 0 ∨ (fullRect src).h = 0 ∨ R.w = 0 ∨ R.h = 0) := by
      simp only [fullRect]; push_neg; omega
    rw [if_neg hz2]
    by_cases hb : inBounds dst R
    · have hb2 : ¬ (¬ inBounds src (fullRect src) ∨ ¬ inBounds dst R) := by
        simp [hfull, hb]
      rw [if_neg hb2]
      refine ⟨⟨fun _ => ?_, fun _ => ⟨_, rfl⟩⟩, fun hns => ?_⟩
      · exact ⟨hb.1, hb.2.1, hb.2.2.1, hb.2.2.2, by omega, by omega⟩
      · exact absurd ⟨hb.1, hb.2.1, hb.2.2.1, hb.2.2.2, by omega, by omega⟩ hns
    · have hb2 : (¬ inBounds src (fullRect src) ∨ ¬ inBounds dst R) := Or.inr hb
      rw [if_pos hb2, if_neg hz]
      refine ⟨⟨fun ⟨p, hp⟩ => Except.noConfusion hp, fun hs => ?_⟩, fun _ => rfl⟩
      exact absurd ⟨hs.1, hs.2.1, hs.2.2.1, hs.2.2.2.1⟩ hb

/-- C4 witness: a VGA NV12 source onto a D1 RGB565 destination with an
interior 100 by 100 selection. -/
theorem plan_selection_iff_witness :
    ((∃ p, plan_operation ⟨.SH_NV12, 640, 480⟩ none ⟨.SH_RGB565, 720, 480⟩
        (some ⟨10, 10, 100, 100⟩) .noRot .veu3f = .ok p) ↔
      selOk ⟨.SH_RGB565, 720, 480⟩ ⟨10, 10, 100, 100⟩) ∧
    (¬ selOk ⟨.SH_RGB565, 720, 480⟩ ⟨10, 10, 100, 100⟩ →
      plan_operation ⟨.SH_NV12, 640, 480⟩ none ⟨.SH_RGB565, 720, 480⟩
        (some ⟨10, 10, 100, 100⟩) .noRot .veu3f =
        .error (if (100 : ℕ) = 0 ∨ (100 : ℕ) = 0 then .ZeroSizedRegion
                else .OutOfBounds)) :=
  plan_selection_iff ⟨.SH_NV12, 640, 480⟩ ⟨.SH_RGB565, 720, 480⟩
    ⟨10, 10, 100, 100⟩ .veu3f (by decide) (by decide) (by decide) (by decide)

/-- C5: with valid surfaces, formats and rectangles, a rotated planning
request succeeds exactly when the effective source dimensions equal the
swapped effective destination dimensions; any mismatch (rotation
combined with resampling) yields RotationScaleConflict. -/
theorem plan_rot90_iff (src dst : Surf) (S D : Rect) (rev : HwRev)
    (hsf : src.format.supported) (hdf : dst.format.supported)
    (hS : 0 < S.w ∧ 0 < S.h) (hD : 0 < D.w ∧ 0 < D.h)
    (hSb : inBounds src S) (hDb : inBounds dst D) :
    ((∃ p, plan_operation src (some S) dst (some D) .rot90 rev = .ok p) ↔
      (S.w = D.h ∧ S.h = D.w)) ∧
    ((S.w ≠ D.h ∨ S.h ≠ D.w) →
      plan_operation src (some S) dst (some D) .rot90 rev =
        .error .RotationScaleConflict) := by
  have h1 : ¬ (¬ src.format.supported ∨ ¬ dst.format.supported) := by simp [hsf, hdf]
  have hz2 : ¬ (S.w = 0 ∨ S.h = 0 ∨ D.w = 0 ∨ D.h = 0) := by omega
  have hb2 : ¬ (¬ inBounds src S ∨ ¬ inBounds dst D) := by simp [hSb, hDb]
  simp only [plan_operation, Option.getD_some]
  unfold plan_rects
  rw [if_neg h1, if_neg hz2, if_neg hb2]
  by_cases hm : S.w = D.h ∧ S.h = D.w
  · rw [if_pos hm]
    exact ⟨⟨fun _ => hm, fun _ => ⟨_, rfl⟩⟩, fun hns => by tauto⟩
  · rw [if_neg hm]
    exact ⟨⟨fun ⟨p, hp⟩ => Except.noConfusion hp, fun hs => absurd hs hm⟩, fun _ => rfl⟩

/-- C5 witness: the CIF scenario, 352 by 288 RGB565 rotated into a
288 by 352 destination with full-surface selections. -/
theorem plan_rot90_iff_witness :
    ((∃ p, plan_operation ⟨.SH_RGB565, 352, 288⟩ (some ⟨0, 0, 352, 288⟩)
        ⟨.SH_RGB565, 288, 352⟩ (some ⟨0, 0, 288, 352⟩) .rot90 .veu2h = .ok p) ↔
      ((352 : ℕ) = 352 ∧ (288 : ℕ) = 288)) ∧
    (((352 : ℕ) ≠ 352 ∨ (288 : ℕ) ≠ 288) →
      plan_operation ⟨.SH_RGB565, 352, 288⟩ (some ⟨0, 0, 352, 288⟩)
        ⟨.SH_RGB565, 288, 352⟩ (some ⟨0, 0, 288, 352⟩) .rot90 .veu2h =
        .error .RotationScaleConflict) :=
  plan_rot90_iff ⟨.SH_RGB565, 352, 288⟩ ⟨.SH_RGB565, 288, 352⟩
    ⟨0, 0, 352, 288⟩ ⟨0, 0, 288, 352⟩ .veu2h (by decide) (by decide)
    (by decide) (by decide) (by decide) (by decide)

/-- Shared helper for C6: in a valid non-rotated enlarging plan, a
non-vanishing correction value is present exactly on the revision that
needs it. -/
theorem corr_present_iff (src dst : Surf) (S D : Rect) (rev : HwRev) (p : OperationPlan)
    (hsf : src.format.supported) (hdf : dst.format.supported)
    (hSw : 0 < S.w) (hSh : 0 < S.h) (hDw : 0 < D.w) (hDh : 0 < D.h)
    (hSb : inBounds src S) (hDb : inBounds dst D)
    (henl : S.w < D.w ∨ S.h < D.h)
    (hp : plan_operation src (some S) dst (some D) .noRot rev = .ok p) :
    ((∃ c, p.corr = some c ∧ c ≠ 0) ↔ rev = .veu3f) := by
  simp only [plan_operation, Option.getD_some] at hp
  rw [plan_rects_noRot src S dst D rev hsf hdf (by omega) hSb hDb] at hp
  have hpe := Except.ok.inj hp
  subst hpe
  have hlt : (1 : ℚ) < (D.w : ℚ) / (S.w : ℚ) ∨ (1 : ℚ) < (D.h : ℚ) / (S.h : ℚ) := by
    rcases henl with h | h
    · left
      rw [one_lt_div (by exact_mod_cast hSw)]
      exact_mod_cast h
    · right
      rw [one_lt_div (by exact_mod_cast hSh)]
      exact_mod_cast h
  have hcv : (0 : ℚ) < (bytes_per_line dst.format D.w : ℚ) /
      (bytes_per_line src.format S.w : ℚ) := by
    apply div_pos
    · exact_mod_cast bytes_per_line_pos dst.format D.w hdf hDw
    · exact_mod_cast bytes_per_line_pos src.format S.w hsf hSw
  dsimp only
  constructor
  · rintro ⟨c, hc, hc0⟩
    cases rev
    · rfl
    · rw [if_neg (by simp)] at hc
      exact Option.noConfusion hc
  · rintro rfl
    refine ⟨_, ?_, ne_of_gt hcv⟩
    rw [if_pos ⟨rfl, hlt⟩]

/-- C6: in every valid enlarging plan without rotation, a non-zero
enlargement-correction value is present exactly on the revision that
requires it (VEU3F) and absent on the other; in particular the VGA to
D1 NV12 scenario (640 by 480 source onto a 720 by 480 selection)
yields horizontal ratio 9/8 = 1.125, vertical ratio 1, and a non-zero
correction only on VEU3F. -/
theorem plan_enlargement_correction :
    (∀ (src dst : Surf) (S D : Rect) (rev : HwRev) (p : OperationPlan),
        src.format.supported → dst.format.supported →
        0 < S.w → 0 < S.h → 0 < D.w → 0 < D.h →
        inBounds src S → inBounds dst D →
        (S.w < D.w ∨ S.h < D.h) →
        plan_operation src (some S) dst (some D) .noRot rev = .ok p →
        ((∃ c, p.corr = some c ∧ c ≠ 0) ↔ rev = .veu3f)) ∧
    plan_operation ⟨.SH_NV12, 640, 480⟩ none ⟨.SH_NV12, 720, 480⟩
        (some ⟨0, 0, 720, 480⟩) .noRot .veu3f =
      .ok { srcRect := ⟨0, 0, 640, 480⟩, dstRect := ⟨0, 0, 720, 480⟩,
            rot := .noRot, hscale := some (9 / 8), vscale := some 1,
            corr := some (9 / 8) } ∧
    (9 / 8 : ℚ) ≠ 0 ∧
    plan_operation ⟨.SH_NV12, 640, 480⟩ none ⟨.SH_NV12, 720, 480⟩
        (some ⟨0, 0, 720, 480⟩) .noRot .veu2h =
      .ok { srcRect := ⟨0, 0, 640, 480⟩, dstRect := ⟨0, 0, 720, 480⟩,
            rot := .noRot, hscale := some (9 / 8), vscale := some 1,
            corr := none } := by
  refine ⟨?_, ?_, by norm_num, ?_⟩
  · intro src dst S D rev p hsf hdf hSw hSh hDw hDh hSb hDb henl hp
    exact corr_present_iff src dst S D rev p hsf hdf hSw hSh hDw hDh hSb hDb henl hp
  · simp only [plan_operation, plan_rects, fullRect, Option.getD_none, Option.getD_some]
    norm_num [inBounds, Format.supported, bytes_per_line]
    exact fun h => Format.noConfusion h
  · simp only [plan_operation, plan_rects, fullRect, Option.getD_none, Option.getD_some]
    norm_num [inBounds, Format.supported, bytes_per_line]
    rw [if_neg (fun h => Format.noConfusion h), if_neg (fun h => HwRev.noConfusion h)]

/-- C7 witness: VGA NV12 concretely. -/
theorem chroma_fits_witness :
    Format.supported .SH_NV12 ∧ (0 : ℕ) < 640 ∧ (0 : ℕ) < 480 ∧
    ((chroma_offset .SH_NV12 640 480 + chroma_plane_size .SH_NV12 640 480 : ℕ) : ℤ) ≤
      imgsize .SH_NV12 640 480 :=
  ⟨by decide, by decide, by decide,
   chroma_fits .SH_NV12 640 480 (by decide) (by decide) (by decide)⟩

/-- The lifecycle states of the operation state machine. -/
inductive JobState where
  | Idle : JobState
  | Configured : JobState
  | Running : JobState
deriving DecidableEq, Repr

/-- The lifecycle error: an operation issued in a state that does not
permit it. -/
inductive VeuErr where
  | InvalidState : VeuErr
deriving DecidableEq, Repr

/-- Modelled from the spec: the engine handle of the operation state
machine (the library core holding it is not under src/): revision,
lifecycle state, the configured frame height in lines, accumulated and
in-flight line counts, and the four base addresses that
set_source/set_destination update. -/
structure Handle where
  rev : HwRev
  js : JobState
  height : ℕ
  processed : ℕ
  pending : ℕ
  srcY : ℕ
  srcC : ℕ
  dstY : ℕ
  dstC : ℕ
deriving DecidableEq, Repr

/-- Modelled from the spec: configure, valid from Idle or Configured,
records the configured frame height (the part of the plan the
lifecycle depends on) and resets the line counters; InvalidState while
Running.  Named after shveu_setup, the call the tools use. -/
def shveu_setup (h : Handle) (height : ℕ) : Option VeuErr × Handle :=
  if h.js = .Running then (some .InvalidState, h)
  else (none, { h with js := .Configured, height := height,
                       processed := 0, pending := 0 })

/-- Modelled from the spec: the full-frame trigger, valid only from
Configured; all configured lines become in-flight. -/
def shveu_start (h : Handle) : Option VeuErr × Handle :=
  if h.js = .Configured then (none, { h with js := .Running, pending := h.height })
  else (some .InvalidState, h)

/-- Modelled from the spec: the partial-height trigger, valid only
from Configured; nrLines lines become in-flight. -/
def shveu_start_bundle (h : Handle) (nrLines : ℕ) : Option VeuErr × Handle :=
  if h.js = .Configured then (none, { h with js := .Running, pending := nrLines })
  else (some .InvalidState, h)

/-- Modelled from the spec: update the source base addresses without
recomputing geometry, valid only from Configured. -/
def shveu_set_src (h : Handle) (py pc : ℕ) : Option VeuErr × Handle :=
  if h.js = .Configured then (none, { h with srcY := py, srcC := pc })
  else (some .InvalidState, h)

/-- Modelled from the spec: update the destination base addresses
without recomputing geometry, valid only from Configured. -/
def shveu_set_dst (h : Handle) (py pc : ℕ) : Option VeuErr × Handle :=
  if h.js = .Configured then (none, { h with dstY := py, dstC := pc })
  else (some .InvalidState, h)

/-- Modelled from the spec: wait, valid only from Running, accumulates
the in-flight lines and reports whether the configured frame is
complete (the end flag of the wait call in the display tool loop); the
final bundle chunk raises it just as a full-frame start does. -/
def shveu_wait (h : Handle) : Option VeuErr × Bool × Handle :=
  if h.js = .Running then
    let lines := h.processed + h.pending
    (none, decide (h.height ≤ lines),
     { h with js := .Configured, processed := lines, pending := 0 })
  else (some .InvalidState, false, h)

/-- C8: start, start_bundle, set_source and set_destination issued
from Idle or Running return InvalidState and leave the handle
unchanged; configure returns InvalidState while Running, also leaving
the handle unchanged. -/
theorem state_machine_rejects (h : Handle) (n py pc : ℕ)
    (hs : h.js = .Idle ∨ h.js = .Running) :
    shveu_start h = (some .InvalidState, h) ∧
    shveu_start_bundle h n = (some .InvalidState, h) ∧
    shveu_set_src h py pc = (some .InvalidState, h) ∧
    shveu_set_dst h py pc = (some .InvalidState, h) ∧
    (h.js = .Running → shveu_setup h n = (some .InvalidState, h)) := by
  rcases hs with h1 | h1 <;>
    simp [shveu_start, shveu_start_bundle, shveu_set_src, shveu_set_dst,
          shveu_setup, h1]

/-- A handle caught while Running, for the C8 witness. -/
def runningHandle : Handle :=
  { rev := .veu3f, js := .Running, height := 480, processed := 0,
    pending := 480, srcY := 0, srcC := 0, dstY := 0, dstC := 0 }

/-- C8 witness: every lifecycle operation rejected on a concrete
Running handle. -/
theorem state_machine_rejects_witness :
    shveu_start runningHandle = (some .InvalidState, runningHandle) ∧
    shveu_start_bundle runningHandle 16 = (some .InvalidState, runningHandle) ∧
    shveu_set_src runningHandle 0 0 = (some .InvalidState, runningHandle) ∧
    shveu_set_dst runningHandle 0 0 = (some .InvalidState, runningHandle) ∧
    (runningHandle.js = .Running →
      shveu_setup runningHandle 16 = (some .InvalidState, runningHandle)) :=
  state_machine_rejects runningHandle 16 0 0 (Or.inr rfl)

/-- The local pointers and loop state of the bundled execution loop of
the display tool: current source luma/chroma and destination
luma/chroma addresses, the end flag of the last wait, and the engine
handle. -/
structure BundleSt where
  py : ℕ
  pc : ℕ
  dy : ℕ
  dc : ℕ
  done : Bool
  h : Handle
deriving DecidableEq, Repr

/-- One iteration of the BUNDLE loop of scale() in the display tool,
for an NV12 source and an NV12 destination of width w: set the current
source and destination addresses, advance the local pointers by
nrLines rows of bytes (nrLines*w luma bytes, nrLines*w/2 chroma bytes
per NV12 plane layout), trigger a bundle of nrLines lines, wait, and
keep the end flag. -/
def bundle_cycle (w nrLines : ℕ) (st : BundleSt) : BundleSt :=
  let h1 := (shveu_set_src st.h st.py st.pc).2
  let h2 := (shveu_set_dst h1 st.dy st.dc).2
  let py2 := st.py + nrLines * w * 1
  let pc2 := st.pc + nrLines * w / 2
  let dy2 := st.dy + nrLines * w * 1
  let dc2 := st.dc + nrLines * w / 2
  let h3 := (shveu_start_bundle h2 nrLines).2
  let r := shveu_wait h3
  { py := py2, pc := pc2, dy := dy2, dc := dc2, done := r.2.1, h := r.2.2 }

/-- An engine handle configured for the 640 by 480 NV12 pass-through
(480 frame lines). -/
def vga_nv12_handle : Handle :=
  (shveu_setup { rev := .veu3f, js := .Idle, height := 0, processed := 0,
                 pending := 0, srcY := 0, srcC := 0, dstY := 0, dstC := 0 } 480).2

/-- The loop state before the first chunk: luma planes at 0, chroma
planes at the 640*480 NV12 chroma offset. -/
def bundle_st0 : BundleSt :=
  { py := 0, pc := 307200, dy := 0, dc := 307200, done := false, h := vga_nv12_handle }

/-- Thirty successive 16-line bundle cycles. -/
def bundle_stN : BundleSt := (bundle_cycle 640 16)^[30] bundle_st0

/-- The same configuration executed as a single full-frame start
followed by wait. -/
def full_frame_run : Option VeuErr × Bool × Handle :=
  shveu_wait (shveu_start vga_nv12_handle).2

set_option maxRecDepth 8000 in
/-- C9: after 30 start_bundle(16)+advance+wait cycles of the 640 by
480 NV12 pass-through, the accumulated processed line count is 480,
the final wait raises the completion flag, and the resulting lifecycle
state and processed count equal those of a single full-frame start
plus wait of the same configuration; the source pointers have advanced
by exactly 480 rows of NV12 bytes. -/
theorem bundle_equiv_full :
    bundle_stN.h.processed = 480 ∧
    bundle_stN.done = true ∧
    full_frame_run.2.1 = true ∧
    bundle_stN.h.js = full_frame_run.2.2.js ∧
    bundle_stN.h.processed = full_frame_run.2.2.processed ∧
    bundle_stN.py = 0 + 480 * 640 ∧
    bundle_stN.pc = 307200 + 480 * 640 / 2 := by
  decide

/-- Pointwise pixel write: the update of one cell of a buffer modelled
as an index-to-value function. -/
def writePix (buf : ℕ → ℕ) (i v : ℕ) : ℕ → ℕ :=
  fun j => if j = i then v else buf j

/-- The inner loop of draw_rect_rgb565 in the display tool: starting
at cursor p, write n pixels of the color, advancing the cursor by one
per write. -/
def drawRow (color : ℕ) : (ℕ → ℕ) → ℕ → ℕ → (ℕ → ℕ)
  | buf, _, 0 => buf
  | buf, p, n+1 => drawRow color (writePix buf p color) (p+1) n

/-- The outer loop: m rows; within a row the cursor advances by one
per pixel (w in total), then by span - w to the next row start,
exactly the pointer arithmetic of the C loop. -/
def drawRows (color w span : ℕ) : (ℕ → ℕ) → ℕ → ℕ → (ℕ → ℕ)
  | buf, _, 0 => buf
  | buf, p, m+1 => drawRows color w span (drawRow color buf p w) (p + w + (span - w)) m

/-- draw_rect_rgb565 from the display tool (part_002 lines 253..264):
fill the w by h rectangle at (x, y) of a buffer with span pixels per
row, starting at cell y*span + x. -/
def draw_rect_rgb565 (buf : ℕ → ℕ) (color x y w h span : ℕ) : ℕ → ℕ :=
  drawRows color w span buf (y * span + x) h

theorem drawRow_apply (color : ℕ) :
    ∀ (n : ℕ) (buf : ℕ → ℕ) (p j : ℕ),
      drawRow color buf p n j = if p ≤ j ∧ j < p + n then color else buf j := by
  intro n
  induction n with
  | zero =>
    intro buf p j
    show buf j = _
    rw [if_neg (by omega)]
  | succ n ih =>
    intro buf p j
    show drawRow color (writePix buf p color) (p+1) n j = _
    rw [ih]
    unfold writePix
    split_ifs <;> first | rfl | omega

/-- With the rectangle horizontally inside the row (x + w at most
span) and a column index below span, a cell index falls in the written
window of row y exactly when its row is y and its column is inside
x..x+w-1. -/
theorem row_window_iff (span x w c y r : ℕ) (hc : c < span) (hxw : x + w ≤ span) :
    (y * span + x ≤ r * span + c ∧ r * span + c < y * span + x + w) ↔
      (y = r ∧ x ≤ c ∧ c < x + w) := by
  rcases Nat.lt_trichotomy y r with hlt | heq | hgt
  · have hmul : (y + 1) * span ≤ r * span :=
      Nat.mul_le_mul_right span (by omega)
    have hys : (y + 1) * span = y * span + span := by ring
    omega
  · subst heq
    omega
  · have hmul : (r + 1) * span ≤ y * span :=
      Nat.mul_le_mul_right span (by omega)
    have hrs : (r + 1) * span = r * span + span := by ring
    omega

theorem drawRows_apply (color w span x : ℕ) (hxw : x + w ≤ span) :
    ∀ (m y : ℕ) (buf : ℕ → ℕ) (r c : ℕ), c < span →
      drawRows color w span buf (y * span + x) m (r * span + c) =
        if y ≤ r ∧ r < y + m ∧ x ≤ c ∧ c < x + w then color
        else buf (r * span + c) := by
  intro m
  induction m with
  | zero =>
    intro y buf r c hc
    show buf _ = _
    rw [if_neg (by omega)]
  | succ m ih =>
    intro y buf r c hc
    show drawRows color w span (drawRow color buf (y * span + x) w)
        ((y * span + x) + w + (span - w)) m (r * span + c) = _
    have hstep : (y * span + x) + w + (span - w) = (y + 1) * span + x := by
      have h1 : (y + 1) * span = y * span + span := by ring
      omega
    rw [hstep, ih (y + 1) _ r c hc, drawRow_apply]
    have hiff := row_window_iff span x w c y r hc hxw
    split_ifs <;> first | rfl | omega

/-- C10: for a buffer of span pixels per row and a rectangle lying
inside the row width, draw_rect_rgb565 sets the cell at row r, column
c to the color exactly when y at most r below y+h and x at most c
below x+w, and leaves every other cell of the buffer unchanged. -/
theorem draw_rect_frame (buf : ℕ → ℕ) (color x y w h span r c : ℕ)
    (hxw : x + w ≤ span) (hc : c < span) :
    draw_rect_rgb565 buf color x y w h span (r * span + c) =
      if y ≤ r ∧ r < y + h ∧ x ≤ c ∧ c < x + w then color
      else buf (r * span + c) := by
  unfold draw_rect_rgb565
  rw [drawRows_apply color w span x hxw h y buf r c hc]

/-- C10 witness: a 2 by 2 rectangle at (1, 1) in a 4-pixel-wide
buffer, read back at row 2, column 2 (a painted cell). -/
theorem draw_rect_frame_witness :
    (1 + 2 : ℕ) ≤ 4 ∧ (2 : ℕ) < 4 ∧
    draw_rect_rgb565 (fun _ => 7) 5 1 1 2 2 4 (2 * 4 + 2) =
      (if 1 ≤ 2 ∧ 2 < 1 + 2 ∧ 1 ≤ 2 ∧ 2 < 1 + 2 then 5
       else (fun _ => (7 : ℕ)) (2 * 4 + 2)) :=
  ⟨by decide, by decide,
   draw_rect_frame (fun _ => 7) 5 1 1 2 2 4 2 2 (by decide) (by decide)⟩

end Shveu
